import Mathlib

/-!
Verification of `RewardModelTrainer` (applications/Chat/coati/trainer/rm.py).

The trainer is orchestration glue over an external tensor framework: the model,
optimizer, scheduler and strategy are opaque collaborators.  The shallow
embedding therefore represents a batch by the list of per-example
`(chosen_reward, reject_reward)` pairs that the model produces on it (the
`squeeze(1)` / `.to(device)` calls are data movement with no numeric effect),
and represents rewards as exact rationals.  The model's mutable train/eval
mode is threaded explicitly, and each invocation of the model during
`eval_acc` is recorded in a trace together with the mode and the
gradient-tracking flag in force at that moment, mirroring the
`self.model.eval()` / `torch.no_grad()` / `self.model.train()` lines.
Python's `ZeroDivisionError` / `NameError` are embedded as an `Except` error
result.
-/

namespace RM

/-- The train/eval mode of a torch module (`model.train()` / `model.eval()`). -/
inductive Mode where
  | train : Mode
  | eval : Mode
deriving DecidableEq

/-- Python exceptions that the trainer code can raise. -/
inductive PyErr where
  | zeroDivisionError : PyErr
  | nameError : PyErr
deriving DecidableEq

instance {ε α : Type} [DecidableEq ε] [DecidableEq α] : DecidableEq (Except ε α) :=
  fun x y =>
    match x, y with
    | .ok a, .ok b =>
      if h : a = b then isTrue (by rw [h]) else isFalse (fun hc => by cases hc; exact h rfl)
    | .error a, .error b =>
      if h : a = b then isTrue (by rw [h]) else isFalse (fun hc => by cases hc; exact h rfl)
    | .ok _, .error _ => isFalse (fun hc => by cases hc)
    | .error _, .ok _ => isFalse (fun hc => by cases hc)

/-- A batch, abstracted to the per-example `(chosen_reward, reject_reward)`
pairs the model computes for it.  `chosen_reward` and `reject_reward` are the
two equal-length reward tensors of `eval_acc`; pairing them expresses that
they index the same examples. -/
abbrev Batch := List (ℚ × ℚ)

/-- The context in force when the model is invoked once: the module's mode and
whether gradient tracking is enabled. -/
structure CallCtx where
  mode : Mode
  gradEnabled : Bool
deriving DecidableEq

/-- `(chosen_reward - reject_reward).mean().item()` for one batch. -/
def batchMeanGap (b : Batch) : ℚ :=
  (b.map fun p => p.1 - p.2).sum / (b.length : ℚ)

/-- The number of examples of a batch for which
`chosen_reward[i] > reject_reward[i]` (strict comparison, as in the source). -/
def winCount (b : Batch) : ℕ :=
  b.countP fun p => decide (p.2 < p.1)

/-- The loop state of `eval_acc`: the local accumulators `dist`, `on`, `cnt`
together with the instrumentation trace of model invocations. -/
structure EvalAccSt where
  dist : ℚ
  won : ℕ
  cnt : ℕ
  trace : List CallCtx
deriving DecidableEq

/-- One iteration of `eval_acc`'s `for` loop.  Inside the loop the module has
been put in eval mode by `self.model.eval()` and gradient tracking is off
(`torch.no_grad()`), so both model invocations of the iteration are recorded
with that context.  The iteration then runs the per-example `cnt`/`on` loop
and accumulates the batch mean gap into `dist`. -/
def evalBatchStep (st : EvalAccSt) (b : Batch) : EvalAccSt :=
  { dist := st.dist + batchMeanGap b
    won := st.won + winCount b
    cnt := st.cnt + b.length
    trace := st.trace ++ [⟨Mode.eval, false⟩, ⟨Mode.eval, false⟩] }

/-- The whole `for` loop of `eval_acc`, started from zeroed accumulators. -/
def evalFold (bs : List Batch) : EvalAccSt :=
  bs.foldl evalBatchStep ⟨0, 0, 0, []⟩

/-- The value `eval_acc` computes, or the `ZeroDivisionError` it raises:
`dist_mean = dist / len(dataloader)` fails when the dataloader is empty, and
`acc = on / cnt` fails when no example was seen (in source order). -/
def evalCore (bs : List Batch) : Except PyErr (ℚ × ℚ) :=
  let s := evalFold bs
  if bs.length = 0 then .error .zeroDivisionError
  else if s.cnt = 0 then .error .zeroDivisionError
  else .ok (s.dist / (bs.length : ℚ), (s.won : ℚ) / (s.cnt : ℚ))

/-- The observable outcome of one `eval_acc` call. -/
structure EvalOut where
  /-- one entry per model invocation, with the mode/grad context at that call -/
  trace : List CallCtx
  /-- final value of the local accumulator `dist` -/
  dist : ℚ
  /-- final value of the local counter `on` -/
  won : ℕ
  /-- final value of the local counter `cnt` -/
  cnt : ℕ
  /-- the module's mode after the call finishes (normally or by exception) -/
  exitMode : Mode
  /-- the returned `(dist_mean, acc)`, or the exception raised -/
  result : Except PyErr (ℚ × ℚ)
deriving DecidableEq

/-- `RewardModelTrainer.eval_acc`.  The entry mode of the model is taken as a
parameter; the method first executes `self.model.eval()`, so the computation
itself does not depend on it.  When a `ZeroDivisionError` is raised the final
`self.model.train()` line is never reached and the module stays in eval
mode. -/
def evalAcc (_entryMode : Mode) (bs : List Batch) : EvalOut :=
  let s := evalFold bs
  { trace := s.trace
    dist := s.dist
    won := s.won
    cnt := s.cnt
    exitMode := match evalCore bs with
      | .ok _ => Mode.train
      | .error _ => Mode.eval
    result := evalCore bs }

/-- Spec-side restatement (from the spec's words, for claim C4): `dist_mean`
is the sum over batches of the batch's mean gap, divided by the number of
batches. -/
def specDistMean (bs : List Batch) : ℚ :=
  (bs.map batchMeanGap).sum / (bs.length : ℚ)

/-- Spec-side restatement (from the spec's words, for claim C4): `acc` is the
fraction of individual examples whose chosen reward strictly exceeds the
rejected reward. -/
def specAcc (bs : List Batch) : ℚ :=
  (((bs.map winCount).sum : ℕ) : ℚ) / (((bs.map List.length).sum : ℕ) : ℚ)

/-- The dataloader of the spec's Section 8 scenario: two batches of two
examples, with chosen rewards `[2,2]` then `[3,1]` and rejected rewards
`[1,1]` in both. -/
def scenarioBatches : List Batch := [[(2, 1), (2, 1)], [(3, 1), (1, 1)]]

/-- The fields of a `RewardModelTrainer` object.  The collaborator objects
(strategy, optimizer, scheduler, loss function, the three dataloaders) are
opaque to `eval_acc`; each is represented by an abstract token whose value
stands for that object's identity/state.  Only the model's train/eval mode is
mutable state this file's code ever writes. -/
structure TrainerSt where
  modelMode : Mode
  strategy : ℕ
  optimizer : ℕ
  scheduler : ℕ
  lossFn : ℕ
  trainDataloader : ℕ
  validDataloader : ℕ
  evalDataloader : ℕ
deriving DecidableEq

/-- `eval_acc` as a method: the trainer object before and after the call.
Its only write to `self` is through `self.model.eval()` /
`self.model.train()`; `dist`, `on`, `cnt` are locals returned in the
`EvalOut`. -/
def evalAccMethod (t : TrainerSt) (bs : List Batch) : TrainerSt × EvalOut :=
  let out := evalAcc t.modelMode bs
  ({ t with modelMode := out.exitMode }, out)

/-!
## The `fit` loop

`fit` mutates the model through the opaque
`strategy.backward` / `strategy.optimizer_step` / `optimizer.zero_grad`
calls; the only thing the rest of the loop observes about the model is which
rewards it produces.  The embedding therefore numbers model states by a
*version*: the count of optimizer steps performed so far, incremented exactly
at the `optimizer_step` of each training batch.  An abstract function gives,
for each version, the rewards the model produces on each training batch and
on the validation/evaluation dataloaders; the scheduler's effect on future
updates is absorbed into that abstraction. -/

/-- The configuration of a `fit` run: the trainer's construction-time data.
`trainPairs v j` is the per-example reward pairs the model at version `v`
produces on training batch `j`; `lossFn` is `loss_fn` applied to those
rewards; `validBatches v` / `evalBatches v` are the reward pairs the model at
version `v` produces on the validation / evaluation dataloaders. -/
structure FitCfg where
  maxEpochs : ℕ
  numBatches : ℕ
  trainPairs : ℕ → ℕ → Batch
  lossFn : Batch → ℚ
  validBatches : ℕ → List Batch
  evalBatches : ℕ → List Batch
  isRank0 : Bool

/-- One CSV row: `[step, loss, dist, acc]`. -/
structure LogRow where
  step : ℕ
  loss : ℚ
  dist : ℚ
  acc : ℚ

/-- The mutable state of a `fit` run: the model's mode and version, the
number of `scheduler.step()` calls, the in-epoch counter `cnt`, the progress
counter `step_bar.n` (recreated each epoch), the `dist`/`acc` variables, the
most recent `loss` (absent before the first batch ever runs — referencing it
then is Python's `NameError`), and the contents of the timestamped and the
fixed-name CSV files. -/
structure FitSt where
  mode : Mode
  version : ℕ
  schedSteps : ℕ
  cnt : ℕ
  stepBarN : ℕ
  dist : ℚ
  acc : ℚ
  lastLoss : Option ℚ
  tsLog : List LogRow
  fixedLog : List LogRow

/-- Trainer state at the start of `fit`: no steps taken, both CSV files
empty, `loss` not yet defined. -/
def initFitSt (m : Mode) : FitSt :=
  ⟨m, 0, 0, 0, 0, 0, 0, none, [], []⟩

/-- One iteration of `fit`'s training loop, for batch `j`: compute rewards
and loss at the current model version, backpropagate / step the optimizer
(advancing the version) / zero the gradients, increment `cnt`, and when `cnt`
reaches 100 step the scheduler, refresh `dist`/`acc` by `eval_acc` on the
validation dataloader (at the just-updated version), reset `cnt` to 0 and, on
rank 0, append a row to the timestamped CSV using the pre-update progress
counter `step_bar.n` and the current batch's loss; finally
`step_bar.update()`. -/
def batchStep (cfg : FitCfg) (st : FitSt) (j : ℕ) : Except PyErr FitSt :=
  let loss := cfg.lossFn (cfg.trainPairs st.version j)
  let st1 : FitSt := { st with version := st.version + 1, lastLoss := some loss }
  if st1.cnt + 1 = 100 then
    let st2 : FitSt := { st1 with schedSteps := st1.schedSteps + 1 }
    let out := evalAcc st2.mode (cfg.validBatches st2.version)
    match out.result with
    | .error e => .error e
    | .ok p =>
      let st3 : FitSt := { st2 with mode := out.exitMode, dist := p.1, acc := p.2, cnt := 0 }
      let st4 : FitSt := if cfg.isRank0
        then { st3 with tsLog := st3.tsLog ++ [⟨st3.stepBarN, loss, p.1, p.2⟩] }
        else st3
      .ok { st4 with stepBarN := st4.stepBarN + 1 }
  else
    .ok { st1 with cnt := st1.cnt + 1, stepBarN := st1.stepBarN + 1 }

/-- Exception propagation: run `f` on the state unless an exception was
already raised. -/
def exceptStep (x : Except PyErr FitSt) (f : FitSt → Except PyErr FitSt) :
    Except PyErr FitSt :=
  match x with
  | .error e => .error e
  | .ok st => f st

/-- `fit`'s training loop over a list of batch indices; an exception raised
by a batch aborts the loop. -/
def innerLoop (cfg : FitCfg) : List ℕ → FitSt → Except PyErr FitSt
  | [], st => .ok st
  | j :: js, st =>
    match batchStep cfg st j with
    | .error e => .error e
    | .ok st' => innerLoop cfg js st'

/-- The code after an epoch's training loop: `eval_acc` on the evaluation
dataloader, then on rank 0 an appended row to the fixed-name CSV referencing
the most recent `loss` (a `NameError` if no batch ever ran). -/
def epochEnd (cfg : FitCfg) (st : FitSt) : Except PyErr FitSt :=
  let out := evalAcc st.mode (cfg.evalBatches st.version)
  match out.result with
  | .error e => .error e
  | .ok p =>
    let st2 : FitSt := { st with mode := out.exitMode, dist := p.1, acc := p.2 }
    if cfg.isRank0 then
      match st2.lastLoss with
      | none => .error .nameError
      | some l => .ok { st2 with fixedLog := st2.fixedLog ++ [⟨st2.stepBarN, l, p.1, p.2⟩] }
    else .ok st2

/-- One epoch of `fit`: put the model in train mode, reset `cnt`/`acc`/`dist`
and the per-epoch progress counter, run the training loop over all batches,
then the end-of-epoch evaluation and logging. -/
def epochStep (cfg : FitCfg) (st : FitSt) : Except PyErr FitSt :=
  exceptStep
    (innerLoop cfg (List.range cfg.numBatches)
      { st with mode := Mode.train, cnt := 0, acc := 0, dist := 0, stepBarN := 0 })
    (epochEnd cfg)

/-- The epoch loop of `fit`. -/
def epochsLoop (cfg : FitCfg) : ℕ → FitSt → Except PyErr FitSt
  | 0, st => .ok st
  | n + 1, st => exceptStep (epochStep cfg st) (epochsLoop cfg n)

/-- `RewardModelTrainer.fit`, from a model whose mode on entry is `m`. -/
def fit (cfg : FitCfg) (m : Mode) : Except PyErr FitSt :=
  epochsLoop cfg cfg.maxEpochs (initFitSt m)

/-- The timestamped-CSV row written at the `i`-th mid-epoch checkpoint of an
epoch whose loop started at model version `v` and progress counter `j`: the
checkpoint fires after training batch `j + 100 i + 99`, whose loss was
computed at the pre-update version `v + 100 i + 99`; the logged `dist`/`acc`
come from the validation evaluation at the post-update version
`v + 100 i + 100`; the logged step index is the pre-`update()` progress
counter. -/
def midRow (cfg : FitCfg) (vres : ℕ → ℚ × ℚ) (v j i : ℕ) : LogRow :=
  ⟨j + 100 * i + 99,
   cfg.lossFn (cfg.trainPairs (v + 100 * i + 99) (j + 100 * i + 99)),
   (vres (v + 100 * i + 100)).1, (vres (v + 100 * i + 100)).2⟩

/-- All timestamped-CSV rows written during one epoch that starts at model
version `v` with `B` training batches: one per completed century of batches,
and only on rank 0. -/
def epochMidRows (cfg : FitCfg) (vres : ℕ → ℚ × ℚ) (v B : ℕ) : List LogRow :=
  if cfg.isRank0 then (List.range (B / 100)).map (midRow cfg vres v 0) else []

/-- All timestamped-CSV rows written by a run of `e` epochs starting at model
version `v`. -/
def allMidRows (cfg : FitCfg) (vres : ℕ → ℚ × ℚ) : ℕ → ℕ → List LogRow
  | 0, _ => []
  | e + 1, v =>
    epochMidRows cfg vres v cfg.numBatches ++ allMidRows cfg vres e (v + cfg.numBatches)

/-- The fixed-name-CSV row written at the end of an epoch that started at
model version `v` with `B` batches: the final progress-counter value `B`, the
last batch's loss, and the evaluation-dataloader metrics at version
`v + B`. -/
def endRow (cfg : FitCfg) (eres : ℕ → ℚ × ℚ) (v B : ℕ) : LogRow :=
  ⟨B, cfg.lossFn (cfg.trainPairs (v + B - 1) (B - 1)),
   (eres (v + B)).1, (eres (v + B)).2⟩

/-- All fixed-name-CSV rows written by a run of `e` epochs starting at model
version `v` (one per epoch, on rank 0 only). -/
def allEndRows (cfg : FitCfg) (eres : ℕ → ℚ × ℚ) : ℕ → ℕ → List LogRow
  | 0, _ =>  []
  | e + 1, v =>
    (if cfg.isRank0 then [endRow cfg eres v cfg.numBatches] else []) ++
      allEndRows cfg eres e (v + cfg.numBatches)

/-- A concrete witness configuration: one epoch of 100 batches on rank 0,
constant reward pairs everywhere. -/
def cfgW : FitCfg :=
  { maxEpochs := 1
    numBatches := 100
    trainPairs := fun _ _ => [(1, 0)]
    lossFn := fun b => (b.map fun p => p.2 - p.1).sum
    validBatches := fun _ => [[(1, 0)]]
    evalBatches := fun _ => [[(0, 1)]]
    isRank0 := true }

/-- `eval_acc` results on `cfgW`'s validation dataloader at every version. -/
def vresW : ℕ → ℚ × ℚ := fun _ => (1, 1)

/-- `eval_acc` results on `cfgW`'s evaluation dataloader at every version. -/
def eresW : ℕ → ℚ × ℚ := fun _ => (-1, 0)

@[simp] theorem evalAcc_result (m : Mode) (bs : List Batch) :
    (evalAcc m bs).result = evalCore bs := rfl

theorem evalFold_go_dist (bs : List Batch) : ∀ s : EvalAccSt,
    (bs.foldl evalBatchStep s).dist = s.dist + (bs.map batchMeanGap).sum := by
  induction bs with
  | nil => intro s; simp
  | cons b t ih =>
    intro s
    simp only [List.foldl_cons, ih, evalBatchStep, List.map_cons, List.sum_cons]
    ring

theorem evalFold_go_on (bs : List Batch) : ∀ s : EvalAccSt,
    (bs.foldl evalBatchStep s).won = s.won + (bs.map winCount).sum := by
  induction bs with
  | nil => intro s; simp
  | cons b t ih =>
    intro s
    simp only [List.foldl_cons, ih, evalBatchStep, List.map_cons, List.sum_cons]
    omega

theorem evalFold_go_cnt (bs : List Batch) : ∀ s : EvalAccSt,
    (bs.foldl evalBatchStep s).cnt = s.cnt + (bs.map List.length).sum := by
  induction bs with
  | nil => intro s; simp
  | cons b t ih =>
    intro s
    simp only [List.foldl_cons, ih, evalBatchStep, List.map_cons, List.sum_cons]
    omega

theorem evalFold_dist (bs : List Batch) : (evalFold bs).dist = (bs.map batchMeanGap).sum := by
  simpa using evalFold_go_dist bs ⟨0, 0, 0, []⟩

theorem evalFold_on (bs : List Batch) : (evalFold bs).won = (bs.map winCount).sum := by
  simpa using evalFold_go_on bs ⟨0, 0, 0, []⟩

theorem evalFold_cnt (bs : List Batch) : (evalFold bs).cnt = (bs.map List.length).sum := by
  simpa using evalFold_go_cnt bs ⟨0, 0, 0, []⟩

/-- If every batch is non-empty and there is at least one batch, at least one
example is counted. -/
theorem evalFold_cnt_pos (bs : List Batch) (hne : bs ≠ [])
    (hb : ∀ b ∈ bs, b ≠ []) : 0 < (evalFold bs).cnt := by
  rw [evalFold_cnt]
  cases bs with
  | nil => exact absurd rfl hne
  | cons b t =>
    have hb0 : b ≠ [] := hb b (List.mem_cons_self b t)
    have : 0 < b.length := List.length_pos.mpr hb0
    simp only [List.map_cons, List.sum_cons]
    omega

/-- On a non-empty dataloader whose batches are all non-empty, `eval_acc`
returns exactly the spec's `dist_mean` and `acc`. -/
theorem evalCore_ok (bs : List Batch) (hne : bs ≠ [])
    (hb : ∀ b ∈ bs, b ≠ []) :
    evalCore bs = .ok (specDistMean bs, specAcc bs) := by
  have hlen : bs.length ≠ 0 := fun h => hne (List.length_eq_zero.mp h)
  have hpos := evalFold_cnt_pos bs hne hb
  have hcnt : (evalFold bs).cnt ≠ 0 := by omega
  unfold evalCore
  rw [if_neg hlen, if_neg hcnt]
  rw [evalFold_dist, evalFold_on, evalFold_cnt]
  rfl

theorem evalFold_trace_all (bs : List Batch) : ∀ s : EvalAccSt,
    (s.trace.all fun c => decide (c = ⟨Mode.eval, false⟩)) = true →
    ((bs.foldl evalBatchStep s).trace.all fun c => decide (c = ⟨Mode.eval, false⟩)) = true := by
  induction bs with
  | nil => intro s h; simpa using h
  | cons b t ih =>
    intro s h
    simp only [List.foldl_cons]
    refine ih _ ?_
    simp only [evalBatchStep, List.all_append, h, Bool.true_and]
    decide


/-- C1: the spec scenario claims `on=4` and `acc=1.0`, but the second batch's
example `(chosen=1, rejected=1)` does not satisfy the strict comparison
`chosen_reward[i] > reject_reward[i]`, so the code counts only 3 wins and
returns `acc = 3/4`. -/
theorem C1_counterexample :
    (evalAcc Mode.train scenarioBatches).won = 3 ∧
    (evalAcc Mode.train scenarioBatches).won ≠ 4 ∧
    (evalAcc Mode.train scenarioBatches).result = .ok (1, 3 / 4) ∧
    ((3 : ℚ) / 4) ≠ 1 := by
  refine ⟨by decide, by decide, ?_, by norm_num⟩
  norm_num [evalAcc, evalCore, evalFold, evalBatchStep, batchMeanGap, winCount,
    scenarioBatches, List.countP_cons]

/-- C1 (amended): on the scenario dataloader `eval_acc` counts `cnt = 4`
examples and `on = 3` wins (the tied example `(1,1)` is not a win because the
comparison is strict), and returns `acc = 3/4 = 0.75` and `dist_mean = 1.0`
(batch-mean gaps `1.0` and `1.0`). -/
theorem C1_theorem :
    (evalAcc Mode.train scenarioBatches).cnt = 4 ∧
    (evalAcc Mode.train scenarioBatches).won = 3 ∧
    (evalAcc Mode.train scenarioBatches).result = .ok (1, 3 / 4) := by
  refine ⟨by decide, by decide, ?_⟩
  norm_num [evalAcc, evalCore, evalFold, evalBatchStep, batchMeanGap, winCount,
    scenarioBatches, List.countP_cons]

/-- C2: the claim that `eval_acc` leaves the model's mode as it found it is
false: on a model that enters in eval mode, a successful call exits with the
model in train mode (`self.model.train()` is executed unconditionally). -/
theorem C2_counterexample :
    (evalAcc Mode.eval [[(2, 1)]]).exitMode = Mode.train ∧
    Mode.train ≠ Mode.eval := by
  refine ⟨by decide, by decide⟩

/-- C2 (amended): after every `eval_acc` call that returns (rather than
raising), the model is in train mode regardless of the mode immediately
before the call; the mode is preserved only when it was already train. -/
theorem C2_theorem (m : Mode) (bs : List Batch) (p : ℚ × ℚ)
    (h : (evalAcc m bs).result = .ok p) :
    (evalAcc m bs).exitMode = Mode.train := by
  have hc : evalCore bs = .ok p := h
  simp [evalAcc, hc]

theorem C2_witness : (evalAcc Mode.eval [[(2, 1)]]).exitMode = Mode.train :=
  C2_theorem Mode.eval [[(2, 1)]] (1, 1)
    (by norm_num [evalAcc, evalCore, evalFold, evalBatchStep, batchMeanGap, winCount,
      List.countP_cons])

/-- C3: every model invocation of `eval_acc` happens with the module in eval
mode and gradient tracking disabled, and whenever the call returns (for any
entry mode) the module has been put back in train mode. -/
theorem C3_theorem (m : Mode) (bs : List Batch) :
    ((evalAcc m bs).trace.all fun c => decide (c = ⟨Mode.eval, false⟩)) = true ∧
    ((evalAcc m bs).result.isOk = true → (evalAcc m bs).exitMode = Mode.train) := by
  constructor
  · exact evalFold_trace_all bs ⟨0, 0, 0, []⟩ (by decide)
  · intro h
    cases hc : evalCore bs with
    | ok p => simp [evalAcc, hc]
    | error e =>
      rw [show (evalAcc m bs).result = evalCore bs from rfl, hc] at h
      simp [Except.isOk, Except.toBool] at h

theorem C3_witness :
    ((evalAcc Mode.eval [[(2, 1)]]).trace.all fun c => decide (c = ⟨Mode.eval, false⟩)) = true ∧
    (evalAcc Mode.eval [[(2, 1)]]).exitMode = Mode.train :=
  ⟨(C3_theorem Mode.eval [[(2, 1)]]).1,
   (C3_theorem Mode.eval [[(2, 1)]]).2 (by decide)⟩

/-- C4: on every non-empty dataloader (whose batches are, as a torch
dataloader guarantees, non-empty), `eval_acc` returns
`dist_mean` = (sum over batches of the batch's mean gap) / (number of
batches) and `acc` = (number of examples with chosen > rejected) / (number of
examples). -/
theorem C4_theorem (m : Mode) (bs : List Batch) (hne : bs ≠ [])
    (hb : ∀ b ∈ bs, b ≠ []) :
    (evalAcc m bs).result = .ok (specDistMean bs, specAcc bs) := by
  rw [evalAcc_result]
  exact evalCore_ok bs hne hb

theorem C4_witness :
    (evalAcc Mode.train scenarioBatches).result =
      .ok (specDistMean scenarioBatches, specAcc scenarioBatches) :=
  C4_theorem Mode.train scenarioBatches (by decide) (by decide)

/-- C5: on a non-empty dataloader (with non-empty batches) where every
example's chosen reward strictly exceeds its rejected reward, `eval_acc`
returns `acc = 1`; where every example's chosen reward is strictly below its
rejected reward, it returns `acc = 0`. -/
theorem C5_theorem (m : Mode) (bs : List Batch) (hne : bs ≠ [])
    (hb : ∀ b ∈ bs, b ≠ []) :
    ((∀ b ∈ bs, ∀ p ∈ b, p.2 < p.1) →
      (evalAcc m bs).result = .ok (specDistMean bs, 1)) ∧
    ((∀ b ∈ bs, ∀ p ∈ b, p.1 < p.2) →
      (evalAcc m bs).result = .ok (specDistMean bs, 0)) := by
  have hlen : 0 < (bs.map List.length).sum := by
    have := evalFold_cnt_pos bs hne hb
    rwa [evalFold_cnt] at this
  constructor
  · intro hall
    rw [evalAcc_result, evalCore_ok bs hne hb]
    have hacc : specAcc bs = 1 := by
      unfold specAcc
      have hmap : bs.map winCount = bs.map List.length := by
        refine List.map_congr_left ?_
        intro b hbmem
        unfold winCount
        rw [List.countP_eq_length]
        intro p hp
        exact decide_eq_true (hall b hbmem p hp)
      rw [hmap]
      have hden : (((bs.map List.length).sum : ℕ) : ℚ) ≠ 0 := by
        exact_mod_cast Nat.pos_iff_ne_zero.mp hlen
      rw [div_self hden]
    rw [hacc]
  · intro hall
    rw [evalAcc_result, evalCore_ok bs hne hb]
    have hacc : specAcc bs = 0 := by
      unfold specAcc
      have hmap : (bs.map winCount).sum = 0 := by
        rw [List.sum_eq_zero]
        intro x hx
        obtain ⟨b, hbmem, hbx⟩ := List.mem_map.mp hx
        subst hbx
        unfold winCount
        rw [List.countP_eq_zero]
        intro p hp
        simp only [decide_eq_true_eq]
        exact not_lt.mpr (le_of_lt (hall b hbmem p hp))
      rw [hmap]
      simp
    rw [hacc]

theorem C5_witness :
    (evalAcc Mode.train [[(2, 1)]]).result = .ok (specDistMean [[(2, 1)]], 1) ∧
    (evalAcc Mode.train [[(1, 2)]]).result = .ok (specDistMean [[(1, 2)]], 0) :=
  ⟨(C5_theorem Mode.train [[(2, 1)]] (by decide) (by decide)).1 (by decide),
   (C5_theorem Mode.train [[(1, 2)]] (by decide) (by decide)).2 (by decide)⟩

/-- C6: on an empty dataloader `eval_acc` deterministically raises
`ZeroDivisionError` (at `dist = 0` divided by `len(dataloader) = 0`); no
handler intercepts it and no sentinel value is returned. -/
theorem C6_theorem (m : Mode) :
    (evalAcc m []).result = .error PyErr.zeroDivisionError := rfl


/-- C9: `eval_acc` mutates no field of the trainer other than the model's
mode: the strategy, optimizer, scheduler, loss function and the three
dataloader fields are unchanged, and the accumulators live only in the call's
result. -/
theorem C9_theorem (t : TrainerSt) (bs : List Batch) :
    (evalAccMethod t bs).1.strategy = t.strategy ∧
    (evalAccMethod t bs).1.optimizer = t.optimizer ∧
    (evalAccMethod t bs).1.scheduler = t.scheduler ∧
    (evalAccMethod t bs).1.lossFn = t.lossFn ∧
    (evalAccMethod t bs).1.trainDataloader = t.trainDataloader ∧
    (evalAccMethod t bs).1.validDataloader = t.validDataloader ∧
    (evalAccMethod t bs).1.evalDataloader = t.evalDataloader ∧
    (evalAccMethod t bs).1.modelMode = (evalAcc t.modelMode bs).exitMode ∧
    (evalAccMethod t bs).2 = evalAcc t.modelMode bs :=
  ⟨rfl, rfl, rfl, rfl, rfl, rfl, rfl, rfl, rfl⟩

theorem evalAcc_exitMode_ok (m : Mode) (bs : List Batch) (p : ℚ × ℚ)
    (h : evalCore bs = .ok p) : (evalAcc m bs).exitMode = Mode.train := by
  simp [evalAcc, h]

theorem exceptStep_ok (st : FitSt) (f : FitSt → Except PyErr FitSt) :
    exceptStep (.ok st) f = f st := rfl

theorem innerLoop_append (cfg : FitCfg) (l1 l2 : List ℕ) : ∀ st : FitSt,
    innerLoop cfg (l1 ++ l2) st =
      exceptStep (innerLoop cfg l1 st) (innerLoop cfg l2) := by
  induction l1 with
  | nil => intro st; rfl
  | cons j js ih =>
    intro st
    rw [List.cons_append]
    cases hb : batchStep cfg st j with
    | error e => simp [innerLoop, hb, exceptStep]
    | ok st1 => simp [innerLoop, hb, exceptStep, ih st1]

/-- Running `r + 1` consecutive training batches none of which reaches
`cnt = 100`: the version, counter and progress bar each advance by `r + 1`,
`loss` ends as the last batch's loss, and nothing else changes. -/
theorem innerLoop_plain_succ (cfg : FitCfg) : ∀ (r j : ℕ) (mo : Mode) (v s c : ℕ)
    (d a : ℚ) (ll : Option ℚ) (ts fx : List LogRow), c + r + 1 < 100 →
    innerLoop cfg (List.range' j (r + 1)) ⟨mo, v, s, c, j, d, a, ll, ts, fx⟩ =
      .ok ⟨mo, v + (r + 1), s, c + (r + 1), j + (r + 1), d, a,
           some (cfg.lossFn (cfg.trainPairs (v + r) (j + r))), ts, fx⟩ := by
  intro r
  induction r with
  | zero =>
    intro j mo v s c d a ll ts fx h
    have hcond : ¬(c + 1 = 100) := by omega
    rw [List.range'_one]
    simp [innerLoop, batchStep, hcond]
  | succ r ih =>
    intro j mo v s c d a ll ts fx h
    have hcond : ¬(c + 1 = 100) := by omega
    have hb : batchStep cfg ⟨mo, v, s, c, j, d, a, ll, ts, fx⟩ j =
        .ok ⟨mo, v + 1, s, c + 1, j + 1, d, a,
             some (cfg.lossFn (cfg.trainPairs v j)), ts, fx⟩ := by
      simp [batchStep, hcond]
    rw [List.range'_succ]
    have step1 : innerLoop cfg (j :: List.range' (j + 1) (r + 1))
          ⟨mo, v, s, c, j, d, a, ll, ts, fx⟩ =
        innerLoop cfg (List.range' (j + 1) (r + 1))
          ⟨mo, v + 1, s, c + 1, j + 1, d, a,
           some (cfg.lossFn (cfg.trainPairs v j)), ts, fx⟩ := by
      simp only [innerLoop, hb]
    rw [step1, ih (j + 1) mo (v + 1) s (c + 1) d a
      (some (cfg.lossFn (cfg.trainPairs v j))) ts fx (by omega)]
    have e1 : v + 1 + (r + 1) = v + (r + 1 + 1) := by ring
    have e2 : c + 1 + (r + 1) = c + (r + 1 + 1) := by ring
    have e3 : j + 1 + (r + 1) = j + (r + 1 + 1) := by ring
    have e4 : v + 1 + r = v + (r + 1) := by ring
    have e5 : j + 1 + r = j + (r + 1) := by ring
    rw [e1, e2, e3, e4, e5]

/-- The batch at which `cnt` reaches 100: scheduler step, validation
`eval_acc` at the post-update version `v + 1`, counter reset, and — on
rank 0 — a timestamped-CSV row with the pre-`update()` step index `j` and
this batch's loss. -/
theorem batchStep_checkpoint (cfg : FitCfg) (vres : ℕ → ℚ × ℚ)
    (hv : ∀ w, evalCore (cfg.validBatches w) = .ok (vres w))
    (j : ℕ) (mo : Mode) (v s : ℕ) (d a : ℚ) (ll : Option ℚ) (ts fx : List LogRow) :
    batchStep cfg ⟨mo, v, s, 99, j, d, a, ll, ts, fx⟩ j =
      .ok ⟨Mode.train, v + 1, s + 1, 0, j + 1, (vres (v + 1)).1, (vres (v + 1)).2,
           some (cfg.lossFn (cfg.trainPairs v j)),
           ts ++ (if cfg.isRank0 then
             [⟨j, cfg.lossFn (cfg.trainPairs v j), (vres (v + 1)).1, (vres (v + 1)).2⟩]
           else []), fx⟩ := by
  have h1 := hv (v + 1)
  have hexit := evalAcc_exitMode_ok mo (cfg.validBatches (v + 1)) (vres (v + 1)) h1
  unfold batchStep
  simp only []
  rw [if_pos (by norm_num)]
  simp only [evalAcc_result, h1, hexit]
  cases hR : cfg.isRank0 <;> simp [hR]

/-- Running 100 consecutive batches starting with `cnt = 0`: 99 plain steps
followed by the checkpoint batch. -/
theorem innerLoop_century (cfg : FitCfg) (vres : ℕ → ℚ × ℚ)
    (hv : ∀ w, evalCore (cfg.validBatches w) = .ok (vres w))
    (j : ℕ) (mo : Mode) (v s : ℕ) (d a : ℚ) (ll : Option ℚ) (ts fx : List LogRow) :
    innerLoop cfg (List.range' j 100) ⟨mo, v, s, 0, j, d, a, ll, ts, fx⟩ =
      .ok ⟨Mode.train, v + 100, s + 1, 0, j + 100,
           (vres (v + 100)).1, (vres (v + 100)).2,
           some (cfg.lossFn (cfg.trainPairs (v + 99) (j + 99))),
           ts ++ (if cfg.isRank0 then
             [⟨j + 99, cfg.lossFn (cfg.trainPairs (v + 99) (j + 99)),
               (vres (v + 100)).1, (vres (v + 100)).2⟩]
           else []), fx⟩ := by
  have hsplit : List.range' j 100 = List.range' j 99 ++ List.range' (j + 99) 1 := by
    rw [List.range'_append_1]
  have hplain := innerLoop_plain_succ cfg 98 j mo v s 0 d a ll ts fx (by omega)
  norm_num at hplain
  rw [hsplit, innerLoop_append, hplain, exceptStep_ok]
  rw [List.range'_one]
  have hck := batchStep_checkpoint cfg vres hv (j + 99) mo (v + 99) s d a
    (some (cfg.lossFn (cfg.trainPairs (v + 98) (j + 98)))) ts fx
  have e1 : v + 99 + 1 = v + 100 := by ring
  have e2 : j + 99 + 1 = j + 100 := by ring
  rw [e1, e2] at hck
  simp only [innerLoop, hck]

theorem midRow_succ (cfg : FitCfg) (vres : ℕ → ℚ × ℚ) (v j i : ℕ) :
    midRow cfg vres v j (i + 1) = midRow cfg vres (v + 100) (j + 100) i := by
  have h1 : v + 100 * (i + 1) + 99 = v + 100 + 100 * i + 99 := by ring
  have h2 : j + 100 * (i + 1) + 99 = j + 100 + 100 * i + 99 := by ring
  have h3 : v + 100 * (i + 1) + 100 = v + 100 + 100 * i + 100 := by ring
  unfold midRow
  rw [h1, h2, h3]

theorem map_midRow_succ (cfg : FitCfg) (vres : ℕ → ℚ × ℚ) (v j m : ℕ) :
    (List.range (m + 1)).map (midRow cfg vres v j) =
      midRow cfg vres v j 0 ::
        (List.range m).map (midRow cfg vres (v + 100) (j + 100)) := by
  rw [List.range_succ_eq_map, List.map_cons, List.map_map]
  congr 1
  refine List.map_congr_left ?_
  intro i _
  simp only [Function.comp_apply]
  exact midRow_succ cfg vres v j i

/-- Running `100 (m + 1)` consecutive batches starting with `cnt = 0`:
`m + 1` centuries, each ending in a checkpoint. -/
theorem innerLoop_centuries (cfg : FitCfg) (vres : ℕ → ℚ × ℚ)
    (hv : ∀ w, evalCore (cfg.validBatches w) = .ok (vres w)) :
    ∀ (m j : ℕ) (mo : Mode) (v s : ℕ) (d a : ℚ) (ll : Option ℚ) (ts fx : List LogRow),
    innerLoop cfg (List.range' j (100 * (m + 1))) ⟨mo, v, s, 0, j, d, a, ll, ts, fx⟩ =
      .ok ⟨Mode.train, v + 100 * (m + 1), s + (m + 1), 0, j + 100 * (m + 1),
           (vres (v + 100 * (m + 1))).1, (vres (v + 100 * (m + 1))).2,
           some (cfg.lossFn (cfg.trainPairs (v + 100 * m + 99) (j + 100 * m + 99))),
           ts ++ (if cfg.isRank0 then (List.range (m + 1)).map (midRow cfg vres v j) else []),
           fx⟩ := by
  intro m
  induction m with
  | zero =>
    intro j mo v s d a ll ts fx
    have h100 : 100 * (0 + 1) = 100 := by norm_num
    rw [h100, innerLoop_century cfg vres hv j mo v s d a ll ts fx]
    cases hR : cfg.isRank0 <;> norm_num [hR, midRow, List.range_succ]
  | succ m ih =>
    intro j mo v s d a ll ts fx
    have hsplit : List.range' j (100 * (m + 1 + 1)) =
        List.range' j 100 ++ List.range' (j + 100) (100 * (m + 1)) := by
      rw [List.range'_append_1]
      congr 1
    rw [hsplit, innerLoop_append, innerLoop_century cfg vres hv j mo v s d a ll ts fx,
      exceptStep_ok]
    rw [ih]
    have a1 : v + 100 + 100 * (m + 1) = v + 100 * (m + 1 + 1) := by ring
    have a2 : s + 1 + (m + 1) = s + (m + 1 + 1) := by ring
    have a3 : j + 100 + 100 * (m + 1) = j + 100 * (m + 1 + 1) := by ring
    have a4 : v + 100 + 100 * m + 99 = v + 100 * (m + 1) + 99 := by ring
    have a5 : j + 100 + 100 * m + 99 = j + 100 * (m + 1) + 99 := by ring
    rw [a1, a2, a3, a4, a5]
    cases hR : cfg.isRank0 <;>
      simp [hR, map_midRow_succ, List.append_assoc, midRow]

/-- The end-of-epoch block on a state whose `loss` is defined: evaluation on
the evaluation dataloader at the current version, model back in train mode,
and on rank 0 one appended row to the fixed-name CSV. -/
theorem epochEnd_spec (cfg : FitCfg) (eres : ℕ → ℚ × ℚ)
    (he : ∀ w, evalCore (cfg.evalBatches w) = .ok (eres w))
    (mo : Mode) (v s c n : ℕ) (d a l : ℚ) (ts fx : List LogRow) :
    epochEnd cfg ⟨mo, v, s, c, n, d, a, some l, ts, fx⟩ =
      .ok ⟨Mode.train, v, s, c, n, (eres v).1, (eres v).2, some l, ts,
           fx ++ (if cfg.isRank0 then [⟨n, l, (eres v).1, (eres v).2⟩] else [])⟩ := by
  have h1 := he v
  have hexit := evalAcc_exitMode_ok mo (cfg.evalBatches v) (eres v) h1
  unfold epochEnd
  simp only [evalAcc_result, h1, hexit]
  cases hR : cfg.isRank0 <;> simp [hR]

/-- One full epoch from an arbitrary trainer state: the version advances by
the number of batches, the scheduler steps once per completed century, `cnt`
ends at `numBatches % 100`, the progress counter ends at `numBatches`, the
mid-epoch rows of this epoch are appended to the timestamped CSV and one
summary row to the fixed-name CSV. -/
theorem epochStep_spec (cfg : FitCfg) (vres eres : ℕ → ℚ × ℚ)
    (hv : ∀ w, evalCore (cfg.validBatches w) = .ok (vres w))
    (he : ∀ w, evalCore (cfg.evalBatches w) = .ok (eres w))
    (hB : 0 < cfg.numBatches)
    (mo : Mode) (v s c n : ℕ) (d a : ℚ) (ll : Option ℚ) (ts fx : List LogRow) :
    epochStep cfg ⟨mo, v, s, c, n, d, a, ll, ts, fx⟩ =
      .ok ⟨Mode.train, v + cfg.numBatches, s + cfg.numBatches / 100,
           cfg.numBatches % 100, cfg.numBatches,
           (eres (v + cfg.numBatches)).1, (eres (v + cfg.numBatches)).2,
           some (cfg.lossFn (cfg.trainPairs (v + cfg.numBatches - 1) (cfg.numBatches - 1))),
           ts ++ epochMidRows cfg vres v cfg.numBatches,
           fx ++ (if cfg.isRank0 then [endRow cfg eres v cfg.numBatches] else [])⟩ := by
  unfold epochStep
  simp only [epochMidRows, endRow]
  rw [List.range_eq_range']
  rcases hm : cfg.numBatches / 100 with _ | m'
  · -- fewer than 100 batches: no checkpoint fires
    have hlt : cfg.numBatches < 100 := by omega
    cases hBc : cfg.numBatches with
    | zero => omega
    | succ r' =>
      rw [innerLoop_plain_succ cfg r' 0 Mode.train v s 0 0 0 ll ts fx (by omega),
        exceptStep_ok, epochEnd_spec cfg eres he]
      simp only [Nat.zero_add]
      rw [show (r' + 1) % 100 = r' + 1 from by omega,
        show v + (r' + 1) - 1 = v + r' from by omega,
        show r' + 1 - 1 = r' from by omega]
      simp
  · -- at least one full century
    rcases hr : cfg.numBatches % 100 with _ | r''
    · -- the batch count is an exact multiple of 100
      have hBeq : List.range' 0 cfg.numBatches = List.range' 0 (100 * (m' + 1)) := by
        congr 1
        omega
      rw [hBeq, innerLoop_centuries cfg vres hv m' 0 Mode.train v s 0 0 ll ts fx,
        exceptStep_ok, epochEnd_spec cfg eres he]
      rw [show v + cfg.numBatches - 1 = v + 100 * m' + 99 from by omega,
        show cfg.numBatches - 1 = 0 + 100 * m' + 99 from by omega,
        show v + cfg.numBatches = v + 100 * (m' + 1) from by omega,
        show cfg.numBatches = 0 + 100 * (m' + 1) from by omega]
    · -- a trailing partial century follows the full ones
      have hsplit : List.range' 0 cfg.numBatches =
          List.range' 0 (100 * (m' + 1)) ++ List.range' (0 + 100 * (m' + 1)) (r'' + 1) := by
        rw [List.range'_append_1]
        congr 1
        omega
      rw [hsplit, innerLoop_append,
        innerLoop_centuries cfg vres hv m' 0 Mode.train v s 0 0 ll ts fx, exceptStep_ok,
        innerLoop_plain_succ cfg r'' (0 + 100 * (m' + 1)) Mode.train (v + 100 * (m' + 1))
          (s + (m' + 1)) 0 ((vres (v + 100 * (m' + 1))).1) ((vres (v + 100 * (m' + 1))).2)
          (some (cfg.lossFn (cfg.trainPairs (v + 100 * m' + 99) (0 + 100 * m' + 99))))
          (ts ++ (if cfg.isRank0 then
            (List.range (m' + 1)).map (midRow cfg vres v 0) else [])) fx (by omega),
        exceptStep_ok, epochEnd_spec cfg eres he]
      rw [show v + cfg.numBatches - 1 = v + 100 * (m' + 1) + r'' from by omega,
        show cfg.numBatches - 1 = 0 + 100 * (m' + 1) + r'' from by omega,
        show v + cfg.numBatches = v + 100 * (m' + 1) + (r'' + 1) from by omega,
        show cfg.numBatches = 0 + 100 * (m' + 1) + (r'' + 1) from by omega]
      simp

/-- Running `E` epochs from an arbitrary trainer state: the version advances
by `E · numBatches`, the scheduler steps `E · (numBatches / 100)` times, and
the two CSV files receive exactly the expected rows of each epoch. -/
theorem epochsLoop_spec (cfg : FitCfg) (vres eres : ℕ → ℚ × ℚ)
    (hv : ∀ w, evalCore (cfg.validBatches w) = .ok (vres w))
    (he : ∀ w, evalCore (cfg.evalBatches w) = .ok (eres w))
    (hB : 0 < cfg.numBatches) :
    ∀ (E : ℕ) (mo : Mode) (v s c n : ℕ) (d a : ℚ) (ll : Option ℚ) (ts fx : List LogRow),
    ∃ (mo' : Mode) (c' n' : ℕ) (d' a' : ℚ) (ll' : Option ℚ),
      epochsLoop cfg E ⟨mo, v, s, c, n, d, a, ll, ts, fx⟩ =
        .ok ⟨mo', v + E * cfg.numBatches, s + E * (cfg.numBatches / 100), c', n', d', a', ll',
             ts ++ allMidRows cfg vres E v, fx ++ allEndRows cfg eres E v⟩ ∧
      (0 < E → c' = cfg.numBatches % 100) ∧
      (E = 0 → c' = c) := by
  intro E
  induction E with
  | zero =>
    intro mo v s c n d a ll ts fx
    refine ⟨mo, c, n, d, a, ll, ?_, ?_, ?_⟩
    · simp [epochsLoop, allMidRows, allEndRows]
    · intro h; omega
    · intro _; rfl
  | succ E ih =>
    intro mo v s c n d a ll ts fx
    simp only [epochsLoop]
    rw [epochStep_spec cfg vres eres hv he hB mo v s c n d a ll ts fx, exceptStep_ok]
    obtain ⟨mo', c', n', d', a', ll', heq, hc1, hc0⟩ := ih Mode.train (v + cfg.numBatches)
      (s + cfg.numBatches / 100) (cfg.numBatches % 100) cfg.numBatches
      ((eres (v + cfg.numBatches)).1) ((eres (v + cfg.numBatches)).2)
      (some (cfg.lossFn (cfg.trainPairs (v + cfg.numBatches - 1) (cfg.numBatches - 1))))
      (ts ++ epochMidRows cfg vres v cfg.numBatches)
      (fx ++ (if cfg.isRank0 then [endRow cfg eres v cfg.numBatches] else []))
    refine ⟨mo', c', n', d', a', ll', ?_, ?_, ?_⟩
    · rw [heq,
        show v + cfg.numBatches + E * cfg.numBatches = v + (E + 1) * cfg.numBatches from by ring,
        show s + cfg.numBatches / 100 + E * (cfg.numBatches / 100) =
          s + (E + 1) * (cfg.numBatches / 100) from by ring,
        List.append_assoc, List.append_assoc]
      simp [allMidRows, allEndRows]
    · intro _
      rcases Nat.eq_zero_or_pos E with hE | hE
      · exact hc0 hE
      · exact hc1 hE
    · intro h
      omega

/-- A full `fit` run, characterized up to the fields no claim constrains. -/
theorem fit_spec (cfg : FitCfg) (vres eres : ℕ → ℚ × ℚ)
    (hv : ∀ w, evalCore (cfg.validBatches w) = .ok (vres w))
    (he : ∀ w, evalCore (cfg.evalBatches w) = .ok (eres w))
    (hB : 0 < cfg.numBatches) (m : Mode) :
    ∃ (mo' : Mode) (c' n' : ℕ) (d' a' : ℚ) (ll' : Option ℚ),
      fit cfg m = .ok ⟨mo', cfg.maxEpochs * cfg.numBatches,
        cfg.maxEpochs * (cfg.numBatches / 100), c', n', d', a', ll',
        allMidRows cfg vres cfg.maxEpochs 0, allEndRows cfg eres cfg.maxEpochs 0⟩ ∧
      (0 < cfg.maxEpochs → c' = cfg.numBatches % 100) ∧
      (cfg.maxEpochs = 0 → c' = 0) := by
  obtain ⟨mo', c', n', d', a', ll', heq, hc1, hc0⟩ :=
    epochsLoop_spec cfg vres eres hv he hB cfg.maxEpochs m 0 0 0 0 0 0 none [] []
  refine ⟨mo', c', n', d', a', ll', ?_, hc1, hc0⟩
  unfold fit initFitSt
  rw [heq]
  simp

/-- C7: `fit` with `max_epochs = 1`, a training dataloader of exactly 100
batches and rank 0 performs exactly one scheduler step, appends exactly one
row to the timestamped CSV and one to the fixed-name CSV, and ends with the
in-epoch counter `cnt` reset to 0 by the checkpoint. -/
theorem C7_theorem (cfg : FitCfg) (vres eres : ℕ → ℚ × ℚ) (m : Mode)
    (h1 : cfg.maxEpochs = 1) (h2 : cfg.numBatches = 100) (h3 : cfg.isRank0 = true)
    (hv : ∀ w, evalCore (cfg.validBatches w) = .ok (vres w))
    (he : ∀ w, evalCore (cfg.evalBatches w) = .ok (eres w)) :
    (fit cfg m).map
        (fun st => (st.schedSteps, st.tsLog.length, st.fixedLog.length, st.cnt)) =
      .ok (1, 1, 1, 0) := by
  obtain ⟨mo', c', n', d', a', ll', heq, hc1, _⟩ :=
    fit_spec cfg vres eres hv he (by omega) m
  have hc := hc1 (by omega)
  rw [heq]
  simp [Except.map, h1, h2, h3, hc, allMidRows, epochMidRows, allEndRows]

/-- C8: every row of the timestamped CSV written by `fit` has `dist`/`acc`
equal to the result of `eval_acc` on the validation dataloader evaluated at
the model version reached *after* that step's optimizer update (`midRow`'s
metrics are `vres (v + 100 i + 100)`, one more than the version
`v + 100 i + 99` at which that step's loss was computed), and its logged loss
is the loss of that single most recent training batch, not an average. -/
theorem C8_theorem (cfg : FitCfg) (vres eres : ℕ → ℚ × ℚ) (m : Mode)
    (hB : 0 < cfg.numBatches)
    (hv : ∀ w, evalCore (cfg.validBatches w) = .ok (vres w))
    (he : ∀ w, evalCore (cfg.evalBatches w) = .ok (eres w)) :
    (fit cfg m).map FitSt.tsLog = .ok (allMidRows cfg vres cfg.maxEpochs 0) := by
  obtain ⟨mo', c', n', d', a', ll', heq, _, _⟩ := fit_spec cfg vres eres hv he hB m
  rw [heq]
  simp [Except.map]

/-- C10: the timestamped CSV written by `fit` consists of the per-epoch
blocks `epochMidRows`, and inside each epoch the `k`-th row (0-based `k`,
i.e. the `(k+1)`-th) records step index `100 (k + 1) - 1`: the progress
counter is incremented only after the checkpoint block that writes the
row. -/
theorem C10_theorem (cfg : FitCfg) (vres eres : ℕ → ℚ × ℚ) (m : Mode)
    (hB : 0 < cfg.numBatches)
    (hv : ∀ w, evalCore (cfg.validBatches w) = .ok (vres w))
    (he : ∀ w, evalCore (cfg.evalBatches w) = .ok (eres w)) :
    ((fit cfg m).map FitSt.tsLog = .ok (allMidRows cfg vres cfg.maxEpochs 0)) ∧
    ∀ (w k : ℕ) (hk : k < (epochMidRows cfg vres w cfg.numBatches).length),
      ((epochMidRows cfg vres w cfg.numBatches).get ⟨k, hk⟩).step = 100 * (k + 1) - 1 := by
  constructor
  · obtain ⟨mo', c', n', d', a', ll', heq, _, _⟩ := fit_spec cfg vres eres hv he hB m
    rw [heq]
    simp [Except.map]
  · intro w k
    unfold epochMidRows
    cases hR : cfg.isRank0 with
    | false =>
      intro hk
      simp at hk
    | true =>
      intro hk
      simp [List.get_eq_getElem, midRow]
      omega


theorem cfgW_valid : ∀ w, evalCore (cfgW.validBatches w) = .ok (vresW w) := by
  intro w
  norm_num [cfgW, vresW, evalCore, evalFold, evalBatchStep, batchMeanGap, winCount,
    List.countP_cons]

theorem cfgW_eval : ∀ w, evalCore (cfgW.evalBatches w) = .ok (eresW w) := by
  intro w
  norm_num [cfgW, eresW, evalCore, evalFold, evalBatchStep, batchMeanGap, winCount,
    List.countP_cons]

theorem C7_witness :
    (fit cfgW Mode.train).map
        (fun st => (st.schedSteps, st.tsLog.length, st.fixedLog.length, st.cnt)) =
      .ok (1, 1, 1, 0) :=
  C7_theorem cfgW vresW eresW Mode.train rfl rfl rfl cfgW_valid cfgW_eval

theorem C8_witness :
    (fit cfgW Mode.train).map FitSt.tsLog = .ok (allMidRows cfgW vresW cfgW.maxEpochs 0) :=
  C8_theorem cfgW vresW eresW Mode.train (by decide) cfgW_valid cfgW_eval

theorem C10_witness :
    ((fit cfgW Mode.train).map FitSt.tsLog = .ok (allMidRows cfgW vresW cfgW.maxEpochs 0)) ∧
    ((epochMidRows cfgW vresW 0 cfgW.numBatches).get ⟨0, by decide⟩).step = 100 * (0 + 1) - 1 := by
  have h := C10_theorem cfgW vresW eresW Mode.train (by decide) cfgW_valid cfgW_eval
  exact ⟨h.1, h.2 0 0 (by decide)⟩

end RM
